import Mathlib

/-!
# Verification of the `rkyv_impl` bound-rewriting engine

Shallow embedding of `src/lib.rs` of the `rkyv_impl` proc-macro crate.
The engine takes one `impl` block (a "declaration unit"), and emits the
original block plus a clone whose self type is renamed (`Foo` to
`ArchivedFoo`), whose generic bounds are normalized into the where clause,
and whose where-clause predicates have projected parameters rewritten
(`T` to `T::Archived`), with baseline `T: Archive` bounds and literal
`add_bounds` predicates appended.

The syntax-tree types mirror the fragment of `syn` that the engine
inspects.  Qualified-self types (`qself`) and higher-ranked binders are not
modelled: no function under test produces them and no claim exercises
them.  Raw token streams are modelled by their parse outcomes, since the
`syn` parser/printer is an external boundary the spec treats as fixed.
Rust's `panic!` is modelled as the `panicked` outcome, distinct from a
recoverable `syn::Error` (`compileError`), which the macro converts to a
compile diagnostic.
-/

mutual

/-- A type expression (the fragment of `syn::Type` the engine matches on):
a path (`foo::Bar<A, B>`), a tuple, a reference, or an array. -/
inductive Ty where
  | path (segs : SegList)
  | tuple (elems : TyList)
  | ref (elem : Ty)
  | array (elem : Ty)

/-- A list of type expressions (generic arguments / tuple elements). -/
inductive TyList where
  | nil
  | cons (head : Ty) (tail : TyList)

/-- Path segments: each has an identifier and generic type arguments. -/
inductive SegList where
  | nil
  | cons (ident : String) (args : TyList) (tail : SegList)

end

/-- A single bound in a predicate: a trait path or a lifetime. -/
inductive Bound where
  | trait (path : SegList)
  | lifetime (name : String)

/-- A `syn::WherePredicate`: a bounded type with its bounds, or a
lifetime with its outlived lifetimes. -/
inductive WherePred where
  | type (bounded_ty : Ty) (bounds : List Bound)
  | lifetime (lt : String) (outlives : List String)

/-- A `syn::GenericParam`: type parameter with inline bounds, lifetime
parameter with inline bounds, or const parameter (never touched). -/
inductive GenericParam where
  | type (ident : String) (bounds : List Bound)
  | lifetime (name : String) (bounds : List String)
  | const (ident : String)

/-- `syn::Generics`: parameter list plus optional where clause. -/
structure Generics where
  params : List GenericParam
  whereClause : Option (List WherePred)

/-- Outcome of running (part of) the proc macro: a value, a recoverable
`syn::Error` rendered as a compile diagnostic, or a `panic!`. -/
inductive ProcResult (A : Type) where
  | ok : A → ProcResult A
  | compileError : String → ProcResult A
  | panicked : String → ProcResult A

/-- The inner token stream of a `ArgMeta::List`, modelled by what the
external `syn` parser can make of it: as a comma-separated identifier
list, and as a comma-separated `WherePredicate` list (either may fail). -/
structure Tokens where
  identList : Option (List String)
  predList : Option (List WherePred)

/-- A `syn::ArgMeta` argument: `name(...)`, bare `name`, or `name = value`.
The engine only ever reads single-identifier meta paths. -/
inductive ArgMeta where
  | list (path : String) (tokens : Tokens)
  | pathOnly (path : String)
  | nameValue (path : String)

/-- The meta path of an argument (`ArgMeta::path`). -/
def ArgMeta.metaPath : ArgMeta → String
  | .list p _ => p
  | .pathOnly p => p
  | .nameValue p => p

/-- A whole attribute argument stream, by its parse outcome: empty,
a parsed comma-separated `ArgMeta` list, or a tokenization failure. -/
inductive ArgsTokens where
  | empty
  | metas (ms : List ArgMeta)
  | unparseable

/-- The shape of an attribute's meta (`syn::Attribute::meta`). -/
inductive AttrMeta where
  | list (tokens : ArgsTokens)
  | pathOnly
  | nameValue

/-- A `syn::Attribute` on a method. -/
structure MethodAttr where
  attrPath : String
  meta : AttrMeta

/-- A method (`syn::ImplItemFn`): its attributes, its own generics, and
the rest of the item (name, signature remainder, body), which the engine
never inspects or modifies. -/
structure MethodFn where
  attrs : List MethodAttr
  generics : Generics
  rest : String

/-- An item inside the `impl` block; non-method items pass through. -/
inductive ImplItem where
  | fn (m : MethodFn)
  | other (payload : String)

/-- A `syn::ItemImpl`: the declaration unit. -/
structure ItemImpl where
  selfTy : Ty
  generics : Generics
  traitRef : Option SegList
  items : List ImplItem

/-- Parsed macro arguments (`Arguments` in the source). -/
structure Arguments where
  add_bounds : List WherePred
  transform_params : List String

/-- The accumulating builder (`ArgumentsBuilder` in the source); the
`transform_params` hash set is modelled as a duplicate-free list kept in
first-insertion order (the source's `HashSet` iteration order is
unspecified; every claim about it is order-insensitive). -/
structure ArgumentsBuilder where
  add_bounds : List WherePred
  transform_params : List String

/-- Boolean membership in a list of identifiers. -/
def memb (x : String) : List String → Bool
  | [] => false
  | r :: rs => if x = r then true else memb x rs

/-- Set-insert for the modelled `HashSet<Ident>`. -/
def insertParam (s : List String) (x : String) : List String :=
  if memb x s then s else s ++ [x]

/-- Insert a batch of identifiers into the modelled `HashSet<Ident>`. -/
def insertParams (s : List String) (xs : List String) : List String :=
  xs.foldl insertParam s

/-- One iteration of the loop in `TypeReplacer::visit_type_path_mut`:
if the path's first segment is the projected parameter `r`, insert an
`Archived` segment at index 1.  The segment's own generic arguments are
left in place and never visited. -/
def replaceStep (r : String) : SegList → SegList
  | .nil => .nil
  | .cons id args tail =>
    if id = r then .cons id args (.cons "Archived" .nil tail)
    else .cons id args tail

/-- The whole `for r in self.replace_params` loop of
`TypeReplacer::visit_type_path_mut`, applied to one path. -/
def replaceSegs (ps : List String) (segs : SegList) : SegList :=
  ps.foldl (fun acc r => replaceStep r acc) segs

mutual

/-- `syn::visit_mut` traversal of a `Type` under `TypeReplacer`.  The
`visit_type_path_mut` override fires on `Ty.path` and does not recurse
into the path (so a parameter nested in a path's own generic arguments is
never rewritten); the default traversal recurses through tuples,
references and arrays. -/
def visitTy (ps : List String) : Ty → Ty
  | .path segs => .path (replaceSegs ps segs)
  | .tuple es => .tuple (visitTyList ps es)
  | .ref e => .ref (visitTy ps e)
  | .array e => .array (visitTy ps e)

/-- Traversal of a list of types. -/
def visitTyList (ps : List String) : TyList → TyList
  | .nil => .nil
  | .cons t ts => .cons (visitTy ps t) (visitTyList ps ts)

end

/-- Default `visit_path_mut` on a trait-bound path: the path itself is
not a `TypePath`, so only its generic type arguments are visited (and a
type-path argument rooted at a projected parameter gets rewritten). -/
def visitSegArgs (ps : List String) : SegList → SegList
  | .nil => .nil
  | .cons id args tail => .cons id (visitTyList ps args) (visitSegArgs ps tail)

/-- Traversal of one bound of a predicate. -/
def visitBound (ps : List String) : Bound → Bound
  | .trait segs => .trait (visitSegArgs ps segs)
  | .lifetime l => .lifetime l

/-- Traversal of one where-clause predicate
(`visit_where_predicate_mut`): the bounded type and each bound are
visited; lifetime predicates contain no types. -/
def visitPred (ps : List String) : WherePred → WherePred
  | .type ty bounds => .type (visitTy ps ty) (bounds.map (visitBound ps))
  | .lifetime l os => .lifetime l os

/-- The predicate relocated from a generic parameter's inline bounds by
`normalize_generics` (the `parse_quote!(#t_param)` reparse). -/
def movedPred : GenericParam → Option WherePred
  | .type id bs => if bs.isEmpty then none else some (.type (.path (.cons id .nil .nil)) bs)
  | .lifetime id bs => if bs.isEmpty then none else some (.lifetime id bs)
  | .const _ => none

/-- After `normalize_generics`, every parameter's inline bound list is
empty. -/
def clearParam : GenericParam → GenericParam
  | .type id _ => .type id []
  | .lifetime id _ => .lifetime id []
  | .const id => .const id

/-- `normalize_generics`: move every inline bound into the where clause
(created empty by `make_where_clause` when absent), then clear it. -/
def normalize_generics (g : Generics) : Generics :=
  { params := g.params.map clearParam,
    whereClause := some (g.whereClause.getD [] ++ g.params.filterMap movedPred) }

/-- `transform_generics`: normalize, then run `TypeReplacer` over the
where clause (and nothing else). -/
def transform_generics (ps : List String) (g : Generics) : Generics :=
  let g1 := normalize_generics g
  match g1.whereClause with
  | none => g1
  | some wc => { params := g1.params, whereClause := some (wc.map (visitPred ps)) }

/-- `add_bounds_to_where_clause`: extend an existing clause, create one
only when there is something to put in it. -/
def add_bounds_to_where_clause (additional : List WherePred) (clause : Option (List WherePred)) :
    Option (List WherePred) :=
  match clause with
  | some c => some (c ++ additional)
  | none => if additional.isEmpty then none else some additional

/-- The unit-level where-clause pipeline: `transform_generics` followed
by `add_bounds_to_where_clause`, exactly as `archive_impl` (and
`augment_method`) compose them. -/
def unitWhere (args : Arguments) (g : Generics) : Option (List WherePred) :=
  add_bounds_to_where_clause args.add_bounds (transform_generics args.transform_params g).whereClause

/-- The baseline "supports projection" predicate `#param: Archive`
pushed by `ArgumentsBuilder::build`. -/
def baselinePred (param : String) : WherePred :=
  .type (.path (.cons param .nil .nil)) [.trait (.cons "Archive" .nil .nil)]

/-- `ArgumentsBuilder::build`: append one baseline `param: Archive` per
projected parameter to the literal bounds. -/
def ArgumentsBuilder.build (b : ArgumentsBuilder) : Arguments :=
  { add_bounds := b.add_bounds ++ b.transform_params.map baselinePred,
    transform_params := b.transform_params }

/-- `parse_transform_bounds`: the meta must be a list whose tokens parse
as identifiers; any other meta shape hits a `panic!`. -/
def parse_transform_bounds (m : ArgMeta) (b : ArgumentsBuilder) : ProcResult ArgumentsBuilder :=
  match m with
  | .list _ toks =>
    match toks.identList with
    | some xs => .ok { b with transform_params := insertParams b.transform_params xs }
    | none => .compileError "expected identifier list"
  | _ => .panicked "Unsupported meta: expected structured list transform_bounds(...)"

/-- `parse_add_bounds`: the meta must be a list whose tokens parse as
where predicates; any other meta shape hits a `panic!`. -/
def parse_add_bounds (m : ArgMeta) (b : ArgumentsBuilder) : ProcResult ArgumentsBuilder :=
  match m with
  | .list _ toks =>
    match toks.predList with
    | some xs => .ok { b with add_bounds := b.add_bounds ++ xs }
    | none => .compileError "expected predicate list"
  | _ => .panicked "Unsupported meta: expected structured list add_bounds(...)"

/-- `ArgumentsBuilder::try_add_meta`: dispatch on the argument keyword;
an unrecognized keyword hits the `panic!` in the `else` branch. -/
def try_add_meta (b : ArgumentsBuilder) (m : ArgMeta) : ProcResult ArgumentsBuilder :=
  if m.metaPath = "transform_bounds" then parse_transform_bounds m b
  else if m.metaPath = "add_bounds" then parse_add_bounds m b
  else .panicked ("Unsupported argument " ++ m.metaPath)

/-- The loop over parsed metas in `try_add_metas_token_stream`. -/
def tryAddMetas (b : ArgumentsBuilder) : List ArgMeta → ProcResult ArgumentsBuilder
  | [] => .ok b
  | m :: rest =>
    match try_add_meta b m with
    | .ok b1 => tryAddMetas b1 rest
    | .compileError e => .compileError e
    | .panicked e => .panicked e

/-- `ArgumentsBuilder::try_add_metas_token_stream`: empty streams are a
no-op; otherwise tokenize into metas (`parse_argument_metas`, whose
failure is a recoverable error) and fold them in. -/
def try_add_metas_token_stream (b : ArgumentsBuilder) :
    ArgsTokens → ProcResult ArgumentsBuilder
  | .empty => .ok b
  | .metas ms => tryAddMetas b ms
  | .unparseable => .compileError "malformed argument tokens"

/-- `Arguments::parse`. -/
def Arguments.parse (args : ArgsTokens) : ProcResult Arguments :=
  match try_add_metas_token_stream ⟨[], []⟩ args with
  | .ok b => .ok b.build
  | .compileError e => .compileError e
  | .panicked e => .panicked e

/-- `replace_last_path_segment`: prefix the final segment's identifier
with `Archived`, keeping its generic arguments and all earlier segments. -/
def replace_last_path_segment : SegList → SegList
  | .nil => .nil
  | .cons id args .nil => .cons ("Archived" ++ id) args .nil
  | .cons id args tail => .cons id args (replace_last_path_segment tail)

/-- `replace_self_type`: only `Type::Path` self types are supported; any
other shape hits a `panic!`. -/
def replace_self_type : Ty → ProcResult Ty
  | .path segs => .ok (.path (replace_last_path_segment segs))
  | _ => .panicked "unsupported self type: self type can only be a type path"

/-- The attribute scan of `augment_method`: collect directive metas from
every `archive_method` attribute; a non-list attribute meta hits a
`panic!`. -/
def collectMethodMetas (b : ArgumentsBuilder) : List MethodAttr → ProcResult ArgumentsBuilder
  | [] => .ok b
  | a :: rest =>
    if a.attrPath = "archive_method" then
      match a.meta with
      | .list toks =>
        match try_add_metas_token_stream b toks with
        | .ok b1 => collectMethodMetas b1 rest
        | .compileError e => .compileError e
        | .panicked e => .panicked e
      | _ => .panicked "Unsupported meta: meta can only be structured list archive_method(...)"
    else collectMethodMetas b rest

/-- `augment_method`: build the method's own directive from its
`archive_method` attributes, then transform and augment the method's own
generics with it. -/
def augment_method (m : MethodFn) : ProcResult MethodFn :=
  match collectMethodMetas ⟨[], []⟩ m.attrs with
  | .ok b =>
    .ok { m with generics :=
      { params := (transform_generics b.build.transform_params m.generics).params,
        whereClause := unitWhere b.build m.generics } }
  | .compileError e => .compileError e
  | .panicked e => .panicked e

/-- `augment_methods`: process each method item in order, leaving
non-method items alone; the first failure aborts the whole expansion. -/
def augment_methods : List ImplItem → ProcResult (List ImplItem)
  | [] => .ok []
  | .fn m :: rest =>
    match augment_method m with
    | .ok m1 =>
      match augment_methods rest with
      | .ok rest1 => .ok (.fn m1 :: rest1)
      | .compileError e => .compileError e
      | .panicked e => .panicked e
    | .compileError e => .compileError e
    | .panicked e => .panicked e
  | .other s :: rest =>
    match augment_methods rest with
    | .ok rest1 => .ok (.other s :: rest1)
    | .compileError e => .compileError e
    | .panicked e => .panicked e

/-- The body of `archive_impl` after argument parsing: clone the input,
rewrite the clone's self type, transform its generics, append the
directive's bounds, augment its methods, and emit the untouched original
followed by the clone. -/
def archive_impl_core (args : Arguments) (item : ItemImpl) :
    ProcResult (ItemImpl × ItemImpl) :=
  match replace_self_type item.selfTy with
  | .ok selfTy1 =>
    match augment_methods item.items with
    | .ok items1 =>
      .ok (item,
        { selfTy := selfTy1,
          generics :=
            { params := (transform_generics args.transform_params item.generics).params,
              whereClause := unitWhere args item.generics },
          traitRef := item.traitRef,
          items := items1 })
    | .compileError e => .compileError e
    | .panicked e => .panicked e
  | .compileError e => .compileError e
  | .panicked e => .panicked e

/-- `archive_impl`: parse the arguments (a parse failure becomes a
compile diagnostic with no output), then run the pipeline. -/
def archive_impl (args : ArgsTokens) (item : ItemImpl) :
    ProcResult (ItemImpl × ItemImpl) :=
  match Arguments.parse args with
  | .ok a => archive_impl_core a item
  | .compileError e => .compileError e
  | .panicked e => .panicked e

/-- The `syn` printing boundary for where clauses: `ToTokens for
WhereClause` emits nothing when the predicate list is empty, so an
attached-but-empty clause produces no tokens. -/
def printedWhere : Option (List WherePred) → Option (List WherePred)
  | none => none
  | some ps => if ps.isEmpty then none else some ps

/-- Project a pipeline outcome to the emitted archived item's method
list. -/
def itemsOf : ProcResult (ItemImpl × ItemImpl) → ProcResult (List ImplItem)
  | .ok p => .ok p.2.items
  | .compileError e => .compileError e
  | .panicked e => .panicked e

/-- One generic parameter carries no inline bounds. -/
def paramClean : GenericParam → Bool
  | .type _ bs => bs.isEmpty
  | .lifetime _ bs => bs.isEmpty
  | .const _ => true

/-- Every generic parameter carries no inline bounds (so
`normalize_generics` relocates nothing). -/
def cleanParams (gp : List GenericParam) : Bool :=
  gp.all paramClean

/-- The bare single-segment type path `id`. -/
def bareTy (id : String) : Ty :=
  .path (.cons id .nil .nil)

/-- The projection path `id::Archived` produced from a bare parameter. -/
def projTy (id : String) : Ty :=
  .path (.cons id .nil (.cons "Archived" .nil .nil))

mutual

/-- Syntactic occurrence of identifier `T` anywhere in a type. -/
def occursTy (T : String) : Ty → Bool
  | .path segs => occursSegs T segs
  | .tuple es => occursTyList T es
  | .ref e => occursTy T e
  | .array e => occursTy T e

/-- Syntactic occurrence of `T` anywhere in a list of types. -/
def occursTyList (T : String) : TyList → Bool
  | .nil => false
  | .cons t ts => occursTy T t || occursTyList T ts

/-- Syntactic occurrence of `T` anywhere in a segment list. -/
def occursSegs (T : String) : SegList → Bool
  | .nil => false
  | .cons id args tail =>
    (if id = T then true else false) || occursTyList T args || occursSegs T tail

end

/-- Syntactic occurrence of `T` anywhere in one bound. -/
def occursBound (T : String) : Bound → Bool
  | .trait segs => occursSegs T segs
  | .lifetime _ => false

/-- Syntactic occurrence of `T` anywhere in a bound list. -/
def occursBounds (T : String) (bs : List Bound) : Bool :=
  bs.any (occursBound T)

/-- Syntactic occurrence of `T` anywhere in a predicate. -/
def occursPred (T : String) : WherePred → Bool
  | .type ty bs => occursTy T ty || occursBounds T bs
  | .lifetime _ _ => false

/-- Whether a path's first segment is one of the projected parameters
(the only situation in which `TypeReplacer` changes a path). -/
def headMem (ps : List String) : SegList → Bool
  | .nil => false
  | .cons id _ _ => memb id ps

mutual

/-- Whether the `TypeReplacer` traversal can change this type: some
visited type path is rooted at a projected parameter. -/
def touchesTy (ps : List String) : Ty → Bool
  | .path segs => headMem ps segs
  | .tuple es => touchesTyList ps es
  | .ref e => touchesTy ps e
  | .array e => touchesTy ps e

/-- Whether the traversal can change some type in the list. -/
def touchesTyList (ps : List String) : TyList → Bool
  | .nil => false
  | .cons t ts => touchesTy ps t || touchesTyList ps ts

end

/-- Whether the traversal can change some generic argument of a
trait-bound path. -/
def touchesSegArgs (ps : List String) : SegList → Bool
  | .nil => false
  | .cons _ args tail => touchesTyList ps args || touchesSegArgs ps tail

/-- Whether the traversal can change one bound. -/
def touchesBound (ps : List String) : Bound → Bool
  | .trait segs => touchesSegArgs ps segs
  | .lifetime _ => false

/-- Whether the traversal can change a predicate. -/
def touchesPred (ps : List String) : WherePred → Bool
  | .type ty bs => touchesTy ps ty || bs.any (touchesBound ps)
  | .lifetime _ _ => false

/-- Append on generic-argument lists. -/
def tlAppend : TyList → TyList → TyList
  | .nil, b => b
  | .cons t ts, b => .cons t (tlAppend ts b)

/-- Append on segment lists. -/
def slAppend : SegList → SegList → SegList
  | .nil, b => b
  | .cons id args tail, b => .cons id args (slAppend tail b)

/-- The bound `Clone`. -/
def cloneBound : Bound :=
  .trait (.cons "Clone" .nil .nil)

/-- The bound `Sum<T>`. -/
def sumBoundT : Bound :=
  .trait (.cons "Sum" (.cons (bareTy "T") .nil) .nil)

/-- The bound `Sum<T::Archived>`. -/
def sumBoundArchT : Bound :=
  .trait (.cons "Sum" (.cons (projTy "T") .nil) .nil)

/-- The predicate `T: Clone`. -/
def cxPredT : WherePred :=
  .type (bareTy "T") [cloneBound]

/-- The predicate `S: Sum<T>`. -/
def cxPredS : WherePred :=
  .type (bareTy "S") [sumBoundT]

/-- The method `fn sum<S>() where S: Sum<T>` carrying
`archive_method(transform_bounds(T))`. -/
def c3Method : MethodFn :=
  { attrs := [{ attrPath := "archive_method",
                meta := .list (.metas [.list "transform_bounds" ⟨some ["T"], none⟩]) }],
    generics := { params := [.type "S" []], whereClause := some [cxPredS] },
    rest := "fn sum" }

/-- The declaration unit `impl<T> Foo<T> where T: Clone` containing
`c3Method`. -/
def c3Item : ItemImpl :=
  { selfTy := .path (.cons "Foo" (.cons (bareTy "T") .nil) .nil),
    generics := { params := [.type "T" []], whereClause := some [cxPredT] },
    traitRef := none,
    items := [.fn c3Method] }

/-- The expected archived copy of `c3Method`:
`fn sum<S>() where S: Sum<T::Archived>, T: Archive`. -/
def c3ShadowMethod : MethodFn :=
  { attrs := [{ attrPath := "archive_method",
                meta := .list (.metas [.list "transform_bounds" ⟨some ["T"], none⟩]) }],
    generics := { params := [.type "S" []],
                  whereClause := some [.type (bareTy "S") [sumBoundArchT], baselinePred "T"] },
    rest := "fn sum" }

/-- The expected archived copy of `c3Item`:
`impl<T> ArchivedFoo<T> where T::Archived: Clone, T: Archive`. -/
def c3Shadow : ItemImpl :=
  { selfTy := .path (.cons "ArchivedFoo" (.cons (bareTy "T") .nil) .nil),
    generics := { params := [.type "T" []],
                  whereClause := some [.type (projTy "T") [cloneBound], baselinePred "T"] },
    traitRef := none,
    items := [.fn c3ShadowMethod] }

/-- The macro arguments `transform_bounds(T)`. -/
def c3Args : ArgsTokens :=
  .metas [.list "transform_bounds" ⟨some ["T"], none⟩]

/-- A declaration unit whose self type is the tuple `(A, B)`. -/
def c7Item : ItemImpl :=
  { selfTy := .tuple (.cons (bareTy "A") (.cons (bareTy "B") .nil)),
    generics := { params := [], whereClause := none },
    traitRef := none,
    items := [] }

/-- A minimal declaration unit `impl Foo` with no generics, no clause, no
methods. -/
def c9Item : ItemImpl :=
  { selfTy := bareTy "Foo",
    generics := { params := [], whereClause := none },
    traitRef := none,
    items := [] }

/-- The archived copy of `c9Item` (where clause attached empty by
`make_where_clause`, printed as nothing). -/
def c9Shadow : ItemImpl :=
  { selfTy := bareTy "ArchivedFoo",
    generics := { params := [], whereClause := some [] },
    traitRef := none,
    items := [] }

/-- A path whose first segment is not a projected parameter is left
unchanged by the whole replacement loop. -/
theorem replaceSegs_id (ps : List String) : ∀ segs : SegList,
    headMem ps segs = false → replaceSegs ps segs = segs := by
  induction ps with
  | nil => intro segs _; rfl
  | cons r rs ih =>
    intro segs h
    have hstep : replaceStep r segs = segs := by
      cases segs with
      | nil => rfl
      | cons id args tail =>
        simp only [headMem, memb] at h
        by_cases hir : id = r
        · rw [if_pos hir] at h; cases h
        · simp only [replaceStep, if_neg hir]
    have hmem : headMem rs segs = false := by
      cases segs with
      | nil => rfl
      | cons id args tail =>
        simp only [headMem, memb] at h ⊢
        by_cases hir : id = r
        · rw [if_pos hir] at h; cases h
        · rw [if_neg hir] at h; exact h
    show List.foldl (fun acc r => replaceStep r acc) segs (r :: rs) = segs
    rw [List.foldl_cons, hstep]
    exact ih segs hmem

mutual

/-- A type none of whose visited path roots is a projected parameter is a
fixed point of the traversal. -/
theorem visitTy_id (ps : List String) : ∀ t : Ty,
    touchesTy ps t = false → visitTy ps t = t
  | .path segs, h => by
    simp only [visitTy]
    rw [replaceSegs_id ps segs (by simpa [touchesTy] using h)]
  | .tuple es, h => by
    simp only [visitTy]
    rw [visitTyList_id ps es (by simpa [touchesTy] using h)]
  | .ref e, h => by
    simp only [visitTy]
    rw [visitTy_id ps e (by simpa [touchesTy] using h)]
  | .array e, h => by
    simp only [visitTy]
    rw [visitTy_id ps e (by simpa [touchesTy] using h)]

/-- List version of `visitTy_id`. -/
theorem visitTyList_id (ps : List String) : ∀ ts : TyList,
    touchesTyList ps ts = false → visitTyList ps ts = ts
  | .nil, _ => rfl
  | .cons t ts, h => by
    have h2 : touchesTy ps t = false ∧ touchesTyList ps ts = false := by
      simpa [touchesTyList, Bool.or_eq_false_iff] using h
    simp only [visitTyList]
    rw [visitTy_id ps t h2.1, visitTyList_id ps ts h2.2]

end

/-- A trait-bound path none of whose argument roots is projected is a
fixed point of the traversal. -/
theorem visitSegArgs_id (ps : List String) : ∀ segs : SegList,
    touchesSegArgs ps segs = false → visitSegArgs ps segs = segs
  | .nil, _ => rfl
  | .cons id args tail, h => by
    have h2 : touchesTyList ps args = false ∧ touchesSegArgs ps tail = false := by
      simpa [touchesSegArgs, Bool.or_eq_false_iff] using h
    simp only [visitSegArgs]
    rw [visitTyList_id ps args h2.1, visitSegArgs_id ps tail h2.2]

/-- An untouched bound is a fixed point of the traversal. -/
theorem visitBound_id (ps : List String) (b : Bound)
    (h : touchesBound ps b = false) : visitBound ps b = b := by
  cases b with
  | trait segs =>
    simp only [visitBound]
    rw [visitSegArgs_id ps segs (by simpa [touchesBound] using h)]
  | lifetime l => rfl

/-- An untouched bound list is a fixed point of the traversal. -/
theorem visitBounds_id (ps : List String) : ∀ bs : List Bound,
    bs.any (touchesBound ps) = false → bs.map (visitBound ps) = bs
  | [], _ => rfl
  | b :: bs, h => by
    have h2 : touchesBound ps b = false ∧ bs.any (touchesBound ps) = false := by
      simpa [List.any_cons, Bool.or_eq_false_iff] using h
    simp only [List.map_cons]
    rw [visitBound_id ps b h2.1, visitBounds_id ps bs h2.2]

/-- An untouched predicate is a fixed point of the traversal. -/
theorem visitPred_id (ps : List String) (q : WherePred)
    (h : touchesPred ps q = false) : visitPred ps q = q := by
  cases q with
  | type ty bs =>
    have h2 : touchesTy ps ty = false ∧ bs.any (touchesBound ps) = false := by
      simpa [touchesPred, Bool.or_eq_false_iff] using h
    simp only [visitPred]
    rw [visitTy_id ps ty h2.1, visitBounds_id ps bs h2.2]
  | lifetime l os => rfl

mutual

/-- If `T` occurs nowhere in a type, no visited path root can match it. -/
theorem occursTy_touches (T : String) : ∀ t : Ty,
    occursTy T t = false → touchesTy [T] t = false
  | .path segs, h => by
    cases segs with
    | nil => rfl
    | cons id args tail =>
      simp only [occursTy, occursSegs, Bool.or_eq_false_iff] at h
      obtain ⟨⟨h1, _⟩, _⟩ := h
      simp only [touchesTy, headMem, memb]
      by_cases hit : id = T
      · rw [if_pos hit] at h1; cases h1
      · rw [if_neg hit]
  | .tuple es, h => by
    simp only [touchesTy]
    exact occursTyList_touches T es (by simpa [occursTy] using h)
  | .ref e, h => by
    simp only [touchesTy]
    exact occursTy_touches T e (by simpa [occursTy] using h)
  | .array e, h => by
    simp only [touchesTy]
    exact occursTy_touches T e (by simpa [occursTy] using h)

/-- List version of `occursTy_touches`. -/
theorem occursTyList_touches (T : String) : ∀ ts : TyList,
    occursTyList T ts = false → touchesTyList [T] ts = false
  | .nil, _ => rfl
  | .cons t ts, h => by
    have h2 : occursTy T t = false ∧ occursTyList T ts = false := by
      simpa [occursTyList, Bool.or_eq_false_iff] using h
    simp only [touchesTyList, Bool.or_eq_false_iff]
    exact ⟨occursTy_touches T t h2.1, occursTyList_touches T ts h2.2⟩

end

/-- If `T` occurs nowhere in a segment list, no argument of it can be
touched. -/
theorem occursSegs_touchesArgs (T : String) : ∀ segs : SegList,
    occursSegs T segs = false → touchesSegArgs [T] segs = false
  | .nil, _ => rfl
  | .cons id args tail, h => by
    simp only [occursSegs, Bool.or_eq_false_iff] at h
    obtain ⟨⟨_, h2⟩, h3⟩ := h
    simp only [touchesSegArgs, Bool.or_eq_false_iff]
    exact ⟨occursTyList_touches T args h2, occursSegs_touchesArgs T tail h3⟩

/-- If `T` occurs nowhere in a bound, the bound cannot be touched. -/
theorem occursBound_touches (T : String) (b : Bound)
    (h : occursBound T b = false) : touchesBound [T] b = false := by
  cases b with
  | trait segs =>
    simp only [touchesBound]
    exact occursSegs_touchesArgs T segs (by simpa [occursBound] using h)
  | lifetime l => rfl

/-- If `T` occurs nowhere in a bound list, none of it can be touched. -/
theorem occursBounds_touches (T : String) : ∀ bs : List Bound,
    occursBounds T bs = false → bs.any (touchesBound [T]) = false
  | [], _ => rfl
  | b :: bs, h => by
    have h2 : occursBound T b = false ∧ occursBounds T bs = false := by
      simpa [occursBounds, List.any_cons, Bool.or_eq_false_iff] using h
    simp only [List.any_cons, Bool.or_eq_false_iff]
    exact ⟨occursBound_touches T b h2.1, occursBounds_touches T bs h2.2⟩

/-- If `T` occurs nowhere in a predicate, the predicate cannot be
touched. -/
theorem occursPred_touches (T : String) (q : WherePred)
    (h : occursPred T q = false) : touchesPred [T] q = false := by
  cases q with
  | type ty bs =>
    have h2 : occursTy T ty = false ∧ occursBounds T bs = false := by
      simpa [occursPred, Bool.or_eq_false_iff] using h
    simp only [touchesPred, Bool.or_eq_false_iff]
    exact ⟨occursTy_touches T ty h2.1, occursBounds_touches T bs h2.2⟩
  | lifetime l os => rfl

/-- A predicate in which `T` does not occur is emitted verbatim by the
rewrite for `T`. -/
theorem visitPred_id_of_not_occurs (T : String) (q : WherePred)
    (h : occursPred T q = false) : visitPred [T] q = q :=
  visitPred_id [T] q (occursPred_touches T q h)

/-- A bound list in which `T` does not occur is emitted verbatim. -/
theorem visitBounds_id_of_not_occurs (T : String) (bs : List Bound)
    (h : occursBounds T bs = false) : bs.map (visitBound [T]) = bs :=
  visitBounds_id [T] bs (occursBounds_touches T bs h)

/-- Clearing the inline bounds of a bound-free parameter is a no-op. -/
theorem clearParam_id (p : GenericParam) (h : paramClean p = true) :
    clearParam p = p := by
  cases p with
  | type id bs =>
    cases bs with
    | nil => rfl
    | cons b l => simp [paramClean, List.isEmpty_cons] at h
  | lifetime id bs =>
    cases bs with
    | nil => rfl
    | cons b l => simp [paramClean, List.isEmpty_cons] at h
  | const id => rfl

/-- A bound-free parameter contributes no relocated predicate. -/
theorem movedPred_none (p : GenericParam) (h : paramClean p = true) :
    movedPred p = none := by
  cases p with
  | type id bs => simp only [movedPred]; rw [if_pos (by simpa [paramClean] using h)]
  | lifetime id bs => simp only [movedPred]; rw [if_pos (by simpa [paramClean] using h)]
  | const id => rfl

/-- Clearing bound-free parameters is the identity. -/
theorem map_clearParam_clean : ∀ gp : List GenericParam,
    cleanParams gp = true → gp.map clearParam = gp
  | [], _ => rfl
  | p :: gp, h => by
    have h2 : paramClean p = true ∧ cleanParams gp = true := by
      simpa [cleanParams, List.all_cons, Bool.and_eq_true] using h
    simp only [List.map_cons]
    rw [clearParam_id p h2.1, map_clearParam_clean gp h2.2]

/-- Bound-free parameters contribute no relocated predicates. -/
theorem filterMap_moved_clean : ∀ gp : List GenericParam,
    cleanParams gp = true → gp.filterMap movedPred = []
  | [], _ => rfl
  | p :: gp, h => by
    have h2 : paramClean p = true ∧ cleanParams gp = true := by
      simpa [cleanParams, List.all_cons, Bool.and_eq_true] using h
    rw [List.filterMap_cons, movedPred_none p h2.1]
    exact filterMap_moved_clean gp h2.2

/-- On bound-free parameter lists, normalization only materializes the
where clause (creating it empty when absent) and moves nothing. -/
theorem normalize_clean (g : Generics) (h : cleanParams g.params = true) :
    normalize_generics g = { params := g.params, whereClause := some (g.whereClause.getD []) } := by
  simp only [normalize_generics]
  rw [map_clearParam_clean g.params h, filterMap_moved_clean g.params h, List.append_nil]

/-- On a unit with bound-free parameters and an existing where clause,
the pipeline rewrites each predicate and then appends the directive's
bounds. -/
theorem unitWhere_clean (a : Arguments) (gp : List GenericParam)
    (wc : List WherePred) (h : cleanParams gp = true) :
    unitWhere a { params := gp, whereClause := some wc }
      = some (wc.map (visitPred a.transform_params) ++ a.add_bounds) := by
  simp only [unitWhere, transform_generics]
  rw [normalize_clean { params := gp, whereClause := some wc } h]
  rfl

/-- Rewriting a bare projected parameter yields exactly its projection. -/
theorem visitTy_bare (T : String) : visitTy [T] (bareTy T) = projTy T := by
  simp [bareTy, projTy, visitTy, replaceSegs, List.foldl_cons, List.foldl_nil, replaceStep]

/-- The traversal distributes over appending argument lists. -/
theorem visitTyList_append (ps : List String) : ∀ a b : TyList,
    visitTyList ps (tlAppend a b) = tlAppend (visitTyList ps a) (visitTyList ps b)
  | .nil, b => rfl
  | .cons t ts, b => by
    simp only [tlAppend, visitTyList]
    rw [visitTyList_append ps ts b]

/-- A path rooted at the projected parameter gets `Archived` inserted at
position 1; the root's own generic arguments stay in place. -/
theorem replaceSegs_root (T : String) (args : TyList) (rest : SegList) :
    replaceSegs [T] (.cons T args rest) = .cons T args (.cons "Archived" .nil rest) := by
  simp [replaceSegs, replaceStep]

/-- A path not rooted at the projected parameter is left unchanged, even
when the parameter occurs among its generic arguments. -/
theorem replaceSegs_nonroot (T hd : String) (args : TyList) (rest : SegList)
    (h : hd ≠ T) : replaceSegs [T] (.cons hd args rest) = .cons hd args rest := by
  simp [replaceSegs, replaceStep, if_neg h]

/-- C3: on the unit `Foo<T>` with projected parameter `T`, unit predicate
`T: Clone`, and method `sum<S>() where S: Sum<T>` whose own directive also
projects `T`, the emitted unit predicate list is
`[T::Archived: Clone, T: Archive]` and the emitted method predicate list
is `[S: Sum<T::Archived>, T: Archive]` — exactly the claimed sets
`{T: Archive, T::Archived: Clone}` and `{T: Archive, S: Sum<T::Archived>}`. -/
theorem c3_concrete_scenario : archive_impl c3Args c3Item = .ok (c3Item, c3Shadow) := rfl

/-- C6: an argument whose keyword is neither `transform_bounds` nor
`add_bounds` does not produce a recoverable diagnostic — the engine
panics, contradicting the claim (the spec itself flags this abort as a
defect of the lineage). -/
theorem c6_unknown_keyword_panics :
    Arguments.parse (.metas [.pathOnly "bogus"])
      = .panicked ("Unsupported argument " ++ "bogus") := rfl

/-- C7: a tuple self type does not produce a recoverable
`UnsupportedSelfType` diagnostic — `replace_self_type` panics (zero
declarations are emitted, but via an abort, not a reported error). -/
theorem c7_nonpath_self_type_panics :
    archive_impl .empty c7Item
      = .panicked "unsupported self type: self type can only be a type path" := rfl

/-- C4: the emitted method list is a function of the input item alone —
two runs that differ only in the unit-level projected-parameter set (the
literal bounds held fixed) produce identical method output, because
`augment_method` is driven solely by each method's own
`archive_method` directive. -/
theorem c4_method_scope_independence (tp1 tp2 : List String)
    (ab : List WherePred) (item : ItemImpl) :
    itemsOf (archive_impl_core ⟨ab, tp1⟩ item)
      = itemsOf (archive_impl_core ⟨ab, tp2⟩ item) := by
  unfold archive_impl_core
  cases replace_self_type item.selfTy with
  | ok t =>
    cases augment_methods item.items with
    | ok l => rfl
    | compileError e => rfl
    | panicked e => rfl
  | compileError e => rfl
  | panicked e => rfl

/-- C9: whenever the pipeline succeeds, the first emitted declaration
unit is the input declaration unit, unmodified. -/
theorem c9_pass_through (args : ArgsTokens) (item : ItemImpl)
    (out : ItemImpl × ItemImpl) (h : archive_impl args item = .ok out) :
    out.1 = item := by
  unfold archive_impl at h
  split at h
  · unfold archive_impl_core at h
    split at h
    · split at h
      · cases h; rfl
      · cases h
      · cases h
    · cases h
    · cases h
  · cases h
  · cases h

/-- C9 witness: a concrete successful run on `impl Foo`. -/
theorem c9_pass_through_witness : ((c9Item, c9Shadow) : ItemImpl × ItemImpl).1 = c9Item :=
  c9_pass_through .empty c9Item (c9Item, c9Shadow) rfl

/-- C8: when a unit has no predicates of any kind (no existing clause
content, no inline bounds to relocate, an empty directive adding no
baseline or literal predicates), the pipeline leaves only the degenerate
empty clause materialized by `make_where_clause`, and the `syn` printing
boundary emits no where clause at all for it.  The method pipeline
(`augment_method`) composes the same two functions, so the same holds per
method. -/
theorem c8_no_empty_where_clause (g : Generics)
    (h1 : g.whereClause.getD [] = []) (h2 : cleanParams g.params = true) :
    unitWhere ⟨[], []⟩ g = some [] ∧ printedWhere (unitWhere ⟨[], []⟩ g) = none := by
  have he : unitWhere ⟨[], []⟩ g = some [] := by
    simp only [unitWhere, transform_generics]
    rw [normalize_clean g h2, h1]
    rfl
  exact ⟨he, by rw [he]; rfl⟩

/-- C8 witness: a unit with one bound-free parameter and no clause. -/
theorem c8_no_empty_where_clause_witness :
    unitWhere ⟨[], []⟩ { params := [.type "X" []], whereClause := none } = some []
    ∧ printedWhere (unitWhere ⟨[], []⟩ { params := [.type "X" []], whereClause := none }) = none :=
  c8_no_empty_where_clause { params := [.type "X" []], whereClause := none } rfl rfl

/-- C10: `ArgumentsBuilder::build` folds the baselines into `add_bounds`,
and `archive_impl` appends `add_bounds` only after `transform_generics`
has run, so literal predicates appear verbatim and each baseline keeps
the bare subject `param: Archive` — never `param::Archived: Archive` —
for every input unit. -/
theorem c10_append_after_transform (tps : List String) (lits : List WherePred)
    (g : Generics) :
    unitWhere (ArgumentsBuilder.build ⟨lits, tps⟩) g
      = some (((g.whereClause.getD [] ++ g.params.filterMap movedPred).map (visitPred tps)
          ++ lits) ++ tps.map baselinePred) := by
  simp only [unitWhere, transform_generics, normalize_generics, ArgumentsBuilder.build,
    add_bounds_to_where_clause, List.append_assoc]

/-- Renaming the last segment commutes with a leading prefix of
segments. -/
theorem replace_last_slAppend (id : String) (args : TyList) : ∀ p : SegList,
    replace_last_path_segment (slAppend p (.cons id args .nil))
      = slAppend p (.cons ("Archived" ++ id) args .nil)
  | .nil => rfl
  | .cons id2 args2 .nil => rfl
  | .cons id2 args2 (.cons a b c) => by
    simp only [slAppend, replace_last_path_segment]
    have ih := replace_last_slAppend id args (.cons a b c)
    simp only [slAppend] at ih
    rw [ih]

/-- C5: for any path-shaped self type, the derived reference keeps every
leading segment and the final segment's generic arguments, and only the
final identifier is renamed to `Archived` + identifier. -/
theorem c5_naming_law (pre : SegList) (id : String) (args : TyList) :
    replace_self_type (.path (slAppend pre (.cons id args .nil)))
      = .ok (.path (slAppend pre (.cons ("Archived" ++ id) args .nil))) := by
  simp only [replace_self_type]
  rw [replace_last_slAppend id args pre]

/-- C1 counterexample: with `T` projected, predicate list
`[T: Clone, S: Sum<T>]` — `T: Clone` has a bare-`T` subject and no other
occurrence of `T`, so the original claim demands that the other
predicate `S: Sum<T>` stay unaltered; the pipeline in fact rewrites it to
`S: Sum<T::Archived>`. -/
theorem c1_original_counterexample :
    unitWhere (ArgumentsBuilder.build ⟨[], ["T"]⟩)
        { params := [], whereClause := some [cxPredT, cxPredS] }
      = some [.type (projTy "T") [cloneBound], .type (bareTy "S") [sumBoundArchT],
          baselinePred "T"]
    ∧ WherePred.type (bareTy "S") [sumBoundArchT] ≠ cxPredS := by
  refine ⟨rfl, fun h => absurd (congrArg (occursPred "Archived") h) ?_⟩
  decide

/-- C1 (amended): with `T` projected and a predicate whose subject is the
bare `T` and in which `T` occurs nowhere else, the output list is the
input list pointwise rewritten — that predicate becomes exactly
`T::Archived: Constraint` with the constraint untouched — followed by
exactly one baseline `T: Archive`; and every other predicate in which `T`
does not occur at all is unaltered. -/
theorem c1_amended_projection (T : String) (gp : List GenericParam)
    (ps1 ps2 : List WherePred) (cb : List Bound)
    (hgp : cleanParams gp = true) (hcb : occursBounds T cb = false) :
    unitWhere (ArgumentsBuilder.build ⟨[], [T]⟩)
        { params := gp, whereClause := some (ps1 ++ WherePred.type (bareTy T) cb :: ps2) }
      = some (ps1.map (visitPred [T])
          ++ WherePred.type (projTy T) cb :: (ps2.map (visitPred [T]) ++ [baselinePred T]))
    ∧ ∀ q : WherePred, occursPred T q = false → visitPred [T] q = q := by
  constructor
  · rw [unitWhere_clean (ArgumentsBuilder.build ⟨[], [T]⟩) gp _ hgp]
    simp only [ArgumentsBuilder.build, List.map_cons, List.map_nil, List.nil_append,
      List.map_append, visitPred]
    rw [visitTy_bare T, visitBounds_id_of_not_occurs T cb hcb]
    simp [List.append_assoc, List.cons_append]
  · exact fun q hq => visitPred_id_of_not_occurs T q hq

/-- C1 witness: the single predicate `T: Clone` under `transform_bounds(T)`. -/
theorem c1_amended_projection_witness :
    unitWhere (ArgumentsBuilder.build ⟨[], ["T"]⟩)
        { params := [], whereClause := some [cxPredT] }
      = some [.type (projTy "T") [cloneBound], baselinePred "T"] :=
  (c1_amended_projection "T" [] [] [] [cloneBound] rfl rfl).1

/-- C2 counterexample: the predicate `S: Sum<T>` has subject root `S`
(not `T`), so the original claim says the rewrite for `T` leaves it —
and in particular its constraint — untouched; the pipeline in fact
rewrites its constraint to `Sum<T::Archived>`. -/
theorem c2_original_counterexample :
    transform_generics ["T"] { params := [], whereClause := some [cxPredS] }
      = { params := [], whereClause := some [.type (bareTy "S") [sumBoundArchT]] }
    ∧ visitPred ["T"] cxPredS ≠ cxPredS := by
  refine ⟨rfl, fun h => absurd (congrArg (occursPred "Archived") h) ?_⟩
  decide

/-- C2 (amended): the rewrite inserts the projection at the root of every
type path the traversal visits whose root identifier equals the projected
parameter — the predicate's subject, and type paths standing as direct
generic arguments of the constraint's trait bounds — and never descends
into a visited type path's own generic arguments; a subject whose root
differs is left unchanged even if the parameter occurs nested inside it,
and a predicate with no visited root occurrence is left entirely
unchanged. -/
theorem c2_amended_scope (T : String) :
    (∀ (args : TyList) (rest : SegList) (bs : List Bound), occursBounds T bs = false →
      visitPred [T] (.type (.path (.cons T args rest)) bs)
        = .type (.path (.cons T args (.cons "Archived" .nil rest))) bs)
    ∧ (∀ (hd : String) (args : TyList) (rest : SegList) (bs : List Bound),
        hd ≠ T → occursBounds T bs = false →
      visitPred [T] (.type (.path (.cons hd args rest)) bs)
        = .type (.path (.cons hd args rest)) bs)
    ∧ (∀ (tr : String) (pre post args : TyList) (rest : SegList),
        touchesTyList [T] pre = false → touchesTyList [T] post = false →
      visitBound [T]
          (.trait (.cons tr (tlAppend pre (.cons (.path (.cons T args rest)) post)) .nil))
        = .trait (.cons tr
            (tlAppend pre (.cons (.path (.cons T args (.cons "Archived" .nil rest))) post)) .nil))
    ∧ (∀ q : WherePred, touchesPred [T] q = false → visitPred [T] q = q) := by
  refine ⟨?_, ?_, ?_, ?_⟩
  · intro args rest bs hbs
    simp only [visitPred, visitTy]
    rw [replaceSegs_root T args rest, visitBounds_id_of_not_occurs T bs hbs]
  · intro hd args rest bs hne hbs
    simp only [visitPred, visitTy]
    rw [replaceSegs_nonroot T hd args rest hne, visitBounds_id_of_not_occurs T bs hbs]
  · intro tr pre post args rest hpre hpost
    simp only [visitBound, visitSegArgs]
    rw [visitTyList_append [T] pre (.cons (.path (.cons T args rest)) post)]
    simp only [visitTyList, visitTy]
    rw [visitTyList_id [T] pre hpre, visitTyList_id [T] post hpost,
      replaceSegs_root T args rest]
  · exact fun q hq => visitPred_id [T] q hq

/-- C2 witness: the bare subject `T` with constraint `Clone`. -/
theorem c2_amended_scope_witness :
    visitPred ["T"] (.type (bareTy "T") [cloneBound]) = .type (projTy "T") [cloneBound] :=
  (c2_amended_scope "T").1 .nil .nil [cloneBound] rfl
